/-
  Verification of the yatijapp-server data-access core.

  Shallow embedding of the repository's permission-aware data layer:
  hierarchical access resolution (targets / actions / sessions with acl
  grants), optimistic-concurrency updates, quota-gated creation with
  retry, and the bilingual tokenizer / weighted search ranking.

  Conventions of the embedding:
  - uuids, serial ids and timestamps are Nat; the SQL store is a record
    of row lists; every query is a pure function on that record.
  - wall-clock values (NOW()) are passed explicitly where a query writes
    them; they never influence control flow.
  - the external Postgres text-search primitives (to_tsvector, setweight,
    plainto_tsquery, @@, ts_rank) and the jieba segmenter are collaborators
    outside the repository; they are modelled from the spec where noted,
    with the segmenter kept abstract as a `cut` parameter.
-/
import Mathlib

namespace Yatijapp

/-- Role codes of the `roles` table (migration: owner 0, editor 100, viewer 200). -/
inductive Role where
  | owner
  | editor
  | viewer
deriving DecidableEq, Repr

/-- The `rank` column of the `roles` table; smaller rank = more privilege. -/
def roleRank : Role → Nat
  | .owner => 0
  | .editor => 100
  | .viewer => 200

/-- The `resource_types` enum used by the partitioned `acls` table. -/
inductive ResType where
  | target
  | action
  | session
deriving DecidableEq, Repr

/-- One row of the `acls` table: (user_uuid, resource_type, resource_uuid, role_code). -/
structure Acl where
  userUuid : Nat
  resourceType : ResType
  resourceUuid : Nat
  roleCode : Role
deriving DecidableEq, Repr

/-! ## Tokenizer (internal/tokenizer/jieba.go)

`New` extracts the maximal `[\p{Han}]+` runs and the maximal `[a-zA-Z0-9]+`
runs of the input, concatenates the Han runs, feeds the concatenation to
jieba's CutForSearch, and space-joins each token list. The segmenter is an
external C library, kept abstract as the `cut` argument. -/

/-- The `[\p{Han}]` character class of the regexp in tokenizer.New
    (principal Han blocks: URO, ext-A, ext-B, compatibility ideographs). -/
def isHan (c : Char) : Bool :=
  (0x4E00 ≤ c.toNat && c.toNat ≤ 0x9FFF) ||
  (0x3400 ≤ c.toNat && c.toNat ≤ 0x4DBF) ||
  (0x20000 ≤ c.toNat && c.toNat ≤ 0x2A6DF) ||
  (0xF900 ≤ c.toNat && c.toNat ≤ 0xFAFF)

/-- The `[a-zA-Z0-9]` character class of the regexp in tokenizer.New. -/
def isAlnumAscii (c : Char) : Bool :=
  ('a' ≤ c && c ≤ 'z') || ('A' ≤ c && c ≤ 'Z') || ('0' ≤ c && c ≤ '9')

/-- Run splitter: `cur` holds the (reversed) run in progress; a character
    outside the class closes the current run. -/
def runsGo (p : Char → Bool) : List Char → List Char → List (List Char)
  | cur, [] => if cur.isEmpty then [] else [cur.reverse]
  | cur, c :: cs =>
    if p c then runsGo p (c :: cur) cs
    else if cur.isEmpty then runsGo p [] cs
    else cur.reverse :: runsGo p [] cs

/-- Semantics of regexp.FindAllString for a `[class]+` pattern: the maximal
    runs of characters of the class, in input order. -/
def runs (p : Char → Bool) (l : List Char) : List (List Char) :=
  runsGo p [] l

/-- regexp.FindAllString on a string. -/
def findAllRuns (p : Char → Bool) (s : String) : List String :=
  (runs p s.toList).map String.mk

/-- The Tokenizer struct: one space-joined token string per script stream. -/
structure Tokenizer where
  chinese : String
  english : String
deriving DecidableEq, Repr

/-- tokenizer.New: Han runs are concatenated (separators discarded) and
    re-segmented by `cut` (jieba.CutForSearch); alphanumeric runs are used
    as-is; each stream is joined with single spaces. -/
def tokenizerNew (cut : String → List String) (s : String) : Tokenizer :=
  let chineseMatches := findAllRuns isHan s
  let englishMatches := findAllRuns isAlnumAscii s
  let rawChinese := String.join chineseMatches
  let chineseTokens := cut rawChinese
  { chinese := String.intercalate " " chineseTokens
    english := String.intercalate " " englishMatches }

theorem runsGo_flatten (p : Char → Bool) (l cur : List Char) :
    (runsGo p cur l).flatten = cur.reverse ++ l.filter p := by
  induction l generalizing cur with
  | nil =>
    by_cases h : cur.isEmpty
    · have : cur = [] := List.isEmpty_iff.mp h
      simp [runsGo, h, this]
    · simp [runsGo, h]
  | cons c cs ih =>
    by_cases hp : p c
    · have := ih (c :: cur)
      simp only [runsGo, hp, if_true, this, List.filter_cons, List.reverse_cons]
      simp
    · by_cases h : cur.isEmpty
      · have hc : cur = [] := List.isEmpty_iff.mp h
        simp only [runsGo, hp, if_false, h, if_true, List.filter_cons, hc]
        simpa [hp] using ih []
      · simp only [runsGo, hp, if_false, h, List.flatten_cons, List.filter_cons]
        simp [hp, ih []]

theorem runs_flatten (p : Char → Bool) (l : List Char) :
    (runs p l).flatten = l.filter p := by
  simpa using runsGo_flatten p l []

theorem foldl_append_mk (ls : List (List Char)) (acc : List Char) :
    List.foldl (· ++ ·) (String.mk acc) (ls.map String.mk) = String.mk (acc ++ ls.flatten) := by
  induction ls generalizing acc with
  | nil => simp
  | cons h t ih =>
    simp only [List.map_cons, List.foldl_cons, List.flatten_cons]
    have : String.mk acc ++ String.mk h = String.mk (acc ++ h) := rfl
    rw [this, ih, List.append_assoc]

theorem join_map_mk (ls : List (List Char)) :
    String.join (ls.map String.mk) = String.mk ls.flatten := by
  have := foldl_append_mk ls []
  simpa [String.join] using this

/-- The raw concatenation of Han runs equals filtering Han characters. -/
theorem rawChinese_eq_filter (s : String) :
    String.join (findAllRuns isHan s) = String.mk (s.toList.filter isHan) := by
  rw [findAllRuns, join_map_mk, runs_flatten]

/-! ## Text-search store primitives

The Postgres inverted-index primitives are an external collaborator.
Modelled from the spec: "a text-match primitive supporting natural-language
phrase matching against a pre-built weighted inverted index and a
relevance-scoring function over it". Lexeme weights follow Postgres'
defaults scaled by 10 (A = 1.0, B = 0.4, D = 0.1). The inputs fed to
to_tsvector / plainto_tsquery by this repository are the space-joined token
strings produced by the tokenizer, so tokenisation here is splitting on
spaces. -/

/-- One lexeme of a weighted tsvector. -/
structure Lexeme where
  word : String
  weight : Nat
deriving DecidableEq, Repr

/-- Weight attached by setweight(.., 'A') (scaled Postgres default 1.0). -/
def weightA : Nat := 10
/-- Weight attached by setweight(.., 'B') (scaled Postgres default 0.4). -/
def weightB : Nat := 4
/-- Default weight 'D' of an unweighted to_tsvector (scaled 0.1). -/
def weightD : Nat := 1

/-- Modelled from the spec: the words of a space-joined token string (the
    maximal runs of non-space characters). -/
def queryTerms (q : String) : List String :=
  (runs (fun c => c != ' ') q.toList).map String.mk

/-- Modelled from the spec: setweight(to_tsvector(s), w). -/
def toTsvector (w : Nat) (s : String) : List Lexeme :=
  (queryTerms s).map (fun t => { word := t, weight := w })

/-- Modelled from the spec: `tsv @@ plainto_tsquery(q)` — every term of the
    phrase must be present; an empty tsquery matches nothing. -/
def tsvMatch (tsv : List Lexeme) (q : String) : Bool :=
  let ts := queryTerms q
  !ts.isEmpty && ts.all (fun w => tsv.any (fun l => l.word == w))

/-- Modelled from the spec: `ts_rank(tsv, plainto_tsquery(q))` — the total
    weight of the index occurrences of the query terms. -/
def tsRank (tsv : List Lexeme) (q : String) : Nat :=
  ((queryTerms q).map
    (fun w => (((tsv.filter (fun l => l.word == w)).map Lexeme.weight).sum))).sum

/-- One row of targets_fts / actions_fts: a combined title+description
    index (title weighted 'A', description 'B') and a notes index, each per
    script stream — built exactly as in the Insert/Update SQL. -/
structure ResourceFts where
  resourceUuid : Nat
  chineseTsv : List Lexeme
  englishTsv : List Lexeme
  chineseNotesTsv : List Lexeme
  englishNotesTsv : List Lexeme
deriving DecidableEq, Repr

/-- The tsvector columns written by TargetModel.Insert / ActionModel.Insert:
    setweight(to_tsvector(title), 'A') || setweight(to_tsvector(description), 'B')
    for the combined slots, plain to_tsvector(notes) for the notes slots,
    fed with the per-script token strings of data.GenFTS. -/
def genResourceFts (cut : String → List String) (uuid : Nat)
    (title description notes : String) : ResourceFts :=
  let t := tokenizerNew cut title
  let d := tokenizerNew cut description
  let n := tokenizerNew cut notes
  { resourceUuid := uuid
    chineseTsv := toTsvector weightA t.chinese ++ toTsvector weightB d.chinese
    englishTsv := toTsvector weightA t.english ++ toTsvector weightB d.english
    chineseNotesTsv := toTsvector weightD n.chinese
    englishNotesTsv := toTsvector weightD n.english }

/-- One row of sessions_fts (sessions index only their notes). -/
structure SessionFts where
  sessionUuid : Nat
  chineseNotesTsv : List Lexeme
  englishNotesTsv : List Lexeme
deriving DecidableEq, Repr

/-- The tsvector columns written by SessionModel.Insert / Update. -/
def genSessionFts (cut : String → List String) (uuid : Nat) (notes : String) : SessionFts :=
  let n := tokenizerNew cut notes
  { sessionUuid := uuid
    chineseNotesTsv := toTsvector weightD n.chinese
    englishNotesTsv := toTsvector weightD n.english }

/-! ## Rows and store state -/

/-- A row of the `targets` table (version DEFAULT 1 per the migration);
    timestamps are abstract Nat instants. -/
structure TargetRow where
  uuid : Nat
  serialId : Nat
  title : String
  description : String
  notes : String
  createdAt : Nat
  dueDate : Option Nat
  updatedAt : Nat
  lastActive : Nat
  version : Nat
  status : String
deriving DecidableEq, Repr

/-- A row of the `actions` table (child of exactly one target). -/
structure ActionRow where
  uuid : Nat
  serialId : Nat
  title : String
  description : String
  notes : String
  createdAt : Nat
  updatedAt : Nat
  lastActive : Nat
  dueDate : Option Nat
  status : String
  version : Nat
  targetUuid : Nat
deriving DecidableEq, Repr

/-- A row of the `sessions` table (child of exactly one action). -/
structure SessionRow where
  uuid : Nat
  actionUuid : Nat
  startsAt : Nat
  endsAt : Option Nat
  createdAt : Nat
  updatedAt : Nat
  notes : String
  version : Nat
deriving DecidableEq, Repr

/-- A row of the `daily_quota` table, keyed by (usage_date, resource, user_id). -/
structure QuotaRow where
  usageDate : Nat
  resource : String
  quotaUsed : Nat
  userId : Nat
deriving DecidableEq, Repr

/-- The transactional store: each table is a list of rows. -/
structure DB where
  targets : List TargetRow
  actions : List ActionRow
  sessions : List SessionRow
  acls : List Acl
  targetsFts : List ResourceFts
  actionsFts : List ResourceFts
  sessionsFts : List SessionFts
  dailyQuota : List QuotaRow
deriving DecidableEq, Repr

/-- The error values of the data layer (internal/data): ErrRecordNotFound,
    ErrEditConflict, ErrQuotaExceeded, plus the driver-level failures seen
    by WithTxRetry (any *pq.Error by code, context.DeadlineExceeded) and
    the fmt.Errorf produced when retries are exhausted. -/
inductive DBErr where
  | recordNotFound
  | editConflict
  | quotaExceeded
  | pqError (code : String)
  | deadlineExceeded
  | txFailedAfterRetries
deriving DecidableEq, Repr

/-- An acl row granting `u` rank ≤ `cutoff` on resource (rt, rid) —
    the EXISTS subquery shared by the permission predicates. -/
def grantB (db : DB) (u : Nat) (rt : ResType) (rid : Nat) (cutoff : Nat) : Bool :=
  db.acls.any (fun ac =>
    ac.resourceType == rt && ac.resourceUuid == rid && ac.userUuid == u &&
    decide (roleRank ac.roleCode ≤ cutoff))

/-! ## Get queries (Access Resolver) -/

/-- TargetModel.Get: join acls on the target itself, rank ≤ rank(minRole);
    sql.ErrNoRows maps to ErrRecordNotFound. -/
def targetGet (db : DB) (tid u : Nat) (minRole : Role) : Except DBErr TargetRow :=
  match db.targets.find? (fun t => t.uuid == tid) with
  | none => .error .recordNotFound
  | some t =>
    if grantB db u .target t.uuid (roleRank minRole) then .ok t
    else .error .recordNotFound

/-- ActionModel.Get: the EXISTS accepts a grant on the action itself or on
    its parent target, with rank ≤ the cutoff of minRole. -/
def actionGet (db : DB) (aid u : Nat) (minRole : Role) : Except DBErr ActionRow :=
  match db.actions.find? (fun a => a.uuid == aid) with
  | none => .error .recordNotFound
  | some a =>
    match db.targets.find? (fun t => t.uuid == a.targetUuid) with
    | none => .error .recordNotFound
    | some t =>
      if db.acls.any (fun ac =>
          ac.userUuid == u && decide (roleRank ac.roleCode ≤ roleRank minRole) &&
          ((ac.resourceType == ResType.action && ac.resourceUuid == a.uuid) ||
           (ac.resourceType == ResType.target && ac.resourceUuid == t.uuid)))
      then .ok a
      else .error .recordNotFound

/-- SessionModel.Get: joins the parent action and grandparent target; the
    EXISTS accepts a grant on the session, its action, or its target, with
    rank ≤ rank(minRole). -/
def sessionGet (db : DB) (sid u : Nat) (minRole : Role) : Except DBErr SessionRow :=
  match db.sessions.find? (fun s => s.uuid == sid) with
  | none => .error .recordNotFound
  | some s =>
    match db.actions.find? (fun a => a.uuid == s.actionUuid) with
    | none => .error .recordNotFound
    | some a =>
      match db.targets.find? (fun t => t.uuid == a.targetUuid) with
      | none => .error .recordNotFound
      | some t =>
        if db.acls.any (fun ac =>
            ac.userUuid == u && decide (roleRank ac.roleCode ≤ roleRank minRole) &&
            ((ac.resourceType == ResType.session && ac.resourceUuid == s.uuid) ||
             (ac.resourceType == ResType.action && ac.resourceUuid == a.uuid) ||
             (ac.resourceType == ResType.target && ac.resourceUuid == t.uuid)))
        then .ok s
        else .error .recordNotFound

/-! ## Inserts and optimistic-concurrency updates (Concurrency Guard) -/

/-- TargetModel.Insert: one statement inserting the row (version DEFAULT 1),
    the creator's owner acl, and the fts row. `uuid`/`serial` model the
    uuidv7()/bigserial defaults, `now` the NOW() timestamps; a duplicate
    primary key is a driver error, mirroring the PK constraint. -/
def targetInsert (cut : String → List String) (db : DB) (uuid serial : Nat)
    (title description notes : String) (dueDate : Option Nat) (status : String)
    (u : Nat) (now : Nat) : Except DBErr DB :=
  if db.targets.any (fun t => t.uuid == uuid) then .error (.pqError "23505")
  else .ok { db with
    targets := db.targets ++
      [{ uuid := uuid, serialId := serial, title := title, description := description,
         notes := notes, createdAt := now, dueDate := dueDate, updatedAt := now,
         lastActive := now, version := 1, status := status }]
    acls := db.acls ++
      [{ userUuid := u, resourceType := .target, resourceUuid := uuid, roleCode := .owner }]
    targetsFts := db.targetsFts ++ [genResourceFts cut uuid title description notes] }

/-- The WHERE predicate of TargetModel.Update: identifier + expected version
    + an acl of rank ≤ editor on the target, all in one conditional write. -/
def targetUpdatePred (db : DB) (t : TargetRow) (u : Nat) (row : TargetRow) : Bool :=
  row.uuid == t.uuid && row.version == t.version &&
  grantB db u .target t.uuid (roleRank Role.editor)

/-- TargetModel.Update: the submitted row carries the caller's last observed
    version; zero matched rows surface as ErrEditConflict (sql.ErrNoRows),
    an update bumps version by 1, rewrites the fts row, and returns the row. -/
def targetUpdate (db : DB) (t : TargetRow) (fts : ResourceFts) (u : Nat)
    (now : Nat) : Except DBErr (TargetRow × DB) :=
  match db.targets.find? (targetUpdatePred db t u) with
  | none => .error .editConflict
  | some old =>
    let newRow : TargetRow :=
      { old with title := t.title, description := t.description, notes := t.notes,
                 dueDate := t.dueDate, status := t.status, version := old.version + 1,
                 updatedAt := now, lastActive := now }
    .ok (newRow, { db with
      targets := db.targets.map (fun r => if targetUpdatePred db t u r then newRow else r)
      targetsFts := db.targetsFts.map (fun f =>
        if f.resourceUuid == old.uuid then
          { f with chineseTsv := fts.chineseTsv, englishTsv := fts.englishTsv,
                   chineseNotesTsv := fts.chineseNotesTsv,
                   englishNotesTsv := fts.englishNotesTsv }
        else f) })

/-- The JSON body of updateTargetHandler: absent fields keep stored values. -/
structure TargetPatch where
  title : Option String
  description : Option String
  notes : Option String
  dueDate : Option (Option Nat)
  status : Option String
deriving DecidableEq, Repr

/-- The field merge performed by updateTargetHandler before Update. -/
def applyTargetPatch (t : TargetRow) (p : TargetPatch) : TargetRow :=
  { t with title := p.title.getD t.title,
           description := p.description.getD t.description,
           notes := p.notes.getD t.notes,
           dueDate := p.dueDate.getD t.dueDate,
           status := p.status.getD t.status }

/-- updateTargetHandler (cmd/api/targets.go): authorize with
    Get(id, user, "editor") — ErrRecordNotFound becomes the NotFound
    response — then merge the patch, recompute the fts tokens, and run the
    conditional Update, whose zero-row outcome is the EditConflict response.
    (Validation, which precedes the store write, is outside this model.) -/
def updateTargetEndpoint (cut : String → List String) (db : DB) (tid u : Nat)
    (p : TargetPatch) (now : Nat) : Except DBErr (TargetRow × DB) :=
  match targetGet db tid u Role.editor with
  | .error e => .error e
  | .ok t0 =>
    let t1 := applyTargetPatch t0 p
    let fts := genResourceFts cut t1.uuid t1.title t1.description t1.notes
    targetUpdate db t1 fts u now

/-- The WHERE predicate of ActionModel.Update: identifier + expected
    version, and either (target unchanged ∧ editor rank on the action or on
    its current target) or (target changed ∧ owner rank on both the current
    and the new target). -/
def actionUpdatePred (db : DB) (t : ActionRow) (u : Nat) (row : ActionRow) : Bool :=
  row.uuid == t.uuid && row.version == t.version &&
  ((t.targetUuid == row.targetUuid &&
     (grantB db u .action row.uuid (roleRank Role.editor) ||
      grantB db u .target row.targetUuid (roleRank Role.editor)))
   ||
   (t.targetUuid != row.targetUuid &&
     grantB db u .target row.targetUuid (roleRank Role.owner) &&
     grantB db u .target t.targetUuid (roleRank Role.owner)))

/-- ActionModel.Update: conditional write with the re-parenting rule above;
    zero matched rows surface as ErrEditConflict. -/
def actionUpdate (db : DB) (t : ActionRow) (fts : ResourceFts) (u : Nat)
    (now : Nat) : Except DBErr (ActionRow × DB) :=
  match db.actions.find? (actionUpdatePred db t u) with
  | none => .error .editConflict
  | some old =>
    let newRow : ActionRow :=
      { old with title := t.title, description := t.description, notes := t.notes,
                 dueDate := t.dueDate, status := t.status, version := old.version + 1,
                 updatedAt := now, lastActive := now, targetUuid := t.targetUuid }
    .ok (newRow, { db with
      actions := db.actions.map (fun r => if actionUpdatePred db t u r then newRow else r)
      actionsFts := db.actionsFts.map (fun f =>
        if f.resourceUuid == old.uuid then
          { f with chineseTsv := fts.chineseTsv, englishTsv := fts.englishTsv,
                   chineseNotesTsv := fts.chineseNotesTsv,
                   englishNotesTsv := fts.englishNotesTsv }
        else f) })

/-- The WHERE predicate of SessionModel.Update: identifier + expected
    version, and either (action unchanged ∧ editor rank on the session, its
    action, or — found through the actions join — its target) or (action
    changed ∧ owner rank on both the current and the new action). -/
def sessionUpdatePred (db : DB) (s : SessionRow) (u : Nat) (row : SessionRow) : Bool :=
  row.uuid == s.uuid && row.version == s.version &&
  ((s.actionUuid == row.actionUuid &&
     (grantB db u .session row.uuid (roleRank Role.editor) ||
      grantB db u .action row.actionUuid (roleRank Role.editor) ||
      (match db.actions.find? (fun a => a.uuid == row.actionUuid) with
       | some a => grantB db u .target a.targetUuid (roleRank Role.editor)
       | none => false)))
   ||
   (s.actionUuid != row.actionUuid &&
     grantB db u .action row.actionUuid (roleRank Role.owner) &&
     grantB db u .action s.actionUuid (roleRank Role.owner)))

/-- SessionModel.Update: conditional write with the re-parenting rule above;
    zero matched rows surface as ErrEditConflict. -/
def sessionUpdate (db : DB) (s : SessionRow) (fts : SessionFts) (u : Nat)
    (now : Nat) : Except DBErr (SessionRow × DB) :=
  match db.sessions.find? (sessionUpdatePred db s u) with
  | none => .error .editConflict
  | some old =>
    let newRow : SessionRow :=
      { old with startsAt := s.startsAt, endsAt := s.endsAt, notes := s.notes,
                 updatedAt := now, version := old.version + 1, actionUuid := s.actionUuid }
    .ok (newRow, { db with
      sessions := db.sessions.map (fun r => if sessionUpdatePred db s u r then newRow else r)
      sessionsFts := db.sessionsFts.map (fun f =>
        if f.sessionUuid == old.uuid then
          { f with chineseNotesTsv := fts.chineseNotesTsv,
                   englishNotesTsv := fts.englishNotesTsv }
        else f) })

/-! ## Daily quota (Quota Coordinator) -/

/-- The (user_id, usage_date, resource) key match of the daily_quota queries. -/
def quotaKeyMatch (u date : Nat) (res : String) (q : QuotaRow) : Bool :=
  q.userId == u && q.usageDate == date && q.resource == res

/-- DailyQuotaModel.Insert: INSERT ... ON CONFLICT DO NOTHING with
    quota_used DEFAULT 0. -/
def dailyQuotaInsert (db : DB) (u date : Nat) (res : String) : DB :=
  if db.dailyQuota.any (quotaKeyMatch u date res) then db
  else { db with dailyQuota := db.dailyQuota ++
    [{ usageDate := date, resource := res, quotaUsed := 0, userId := u }] }

/-- DailyQuotaModel.UpdateLock: SELECT quota_used ... FOR UPDATE — reads the
    counter under an exclusive row lock (the lock itself is the store's
    concern; sequentially this is the read). -/
def dailyQuotaRead (db : DB) (u date : Nat) (res : String) : Option Nat :=
  (db.dailyQuota.find? (quotaKeyMatch u date res)).map QuotaRow.quotaUsed

/-- DailyQuotaModel.Increment: UPDATE ... SET quota_used = quota_used + inc. -/
def dailyQuotaIncrement (db : DB) (u date : Nat) (res : String) (inc : Nat) : DB :=
  { db with dailyQuota := db.dailyQuota.map (fun q =>
    if quotaKeyMatch u date res q then { q with quotaUsed := q.quotaUsed + inc } else q) }

/-! ## Transactions and retry (Models.WithTxRetry / Models.withQuotaTx)

A transaction body is a function from the store state to `Except DBErr DB`;
an error means the transaction rolls back, so the caller's state is
unchanged — which is why the error constructors carry no state. -/

/-- database/sql isolation levels. -/
inductive IsolationLevel where
  | levelDefault
  | levelReadUncommitted
  | levelReadCommitted
  | levelWriteCommitted
  | levelRepeatableRead
  | levelSnapshot
  | levelSerializable
  | levelLinearizable
deriving DecidableEq, Repr

/-- database/sql TxOptions. -/
structure TxOptions where
  isolation : IsolationLevel
  readOnly : Bool
deriving DecidableEq, Repr

/-- The `opts` argument withQuotaTx passes to WithTxRetry: the literal nil
    (`m.WithTxRetry(ctx, nil, 3, fn)`), i.e. the store's default isolation. -/
def withQuotaTxOpts : Option TxOptions := none

/-- The maxRetries argument withQuotaTx passes to WithTxRetry. -/
def withQuotaTxMaxRetries : Nat := 3

/-- The retry classifier of WithTxRetry's switch: any *pq.Error (whatever
    its code) and context.DeadlineExceeded continue the loop; every other
    error is returned immediately. -/
def retryable : DBErr → Bool
  | .pqError _ => true
  | .deadlineExceeded => true
  | _ => false

/-- The sleep before the next attempt: (attempt+1) * 50ms. -/
def backoffMs (attempt : Nat) : Nat := (attempt + 1) * 50

/-- Modelled from the spec: the transient store-failure class the spec
    names — "timeout/serialization conflict" — i.e. Postgres class 40001
    (serialization_failure) or a context deadline. For comparison with the
    broader classifier the code actually uses. -/
def transientPerSpec : DBErr → Bool
  | .pqError code => code == "40001"
  | .deadlineExceeded => true
  | _ => false

/-- The loop of Models.WithTxRetry, with `results n` the outcome of the
    n-th transaction attempt: `for attempt := 0; attempt <= maxRetries`,
    retrying on `retryable` errors and ending in the fmt.Errorf failure
    when the loop exhausts. `fuel` counts the remaining iterations. -/
def withTxRetryAux (results : Nat → Except DBErr α) : Nat → Nat → Except DBErr α
  | _, 0 => .error .txFailedAfterRetries
  | attempt, fuel + 1 =>
    match results attempt with
    | .ok a => .ok a
    | .error e => if retryable e then withTxRetryAux results (attempt + 1) fuel
                  else .error e

/-- Models.WithTxRetry: up to maxRetries+1 attempts. -/
def withTxRetry (maxRetries : Nat) (results : Nat → Except DBErr α) : Except DBErr α :=
  withTxRetryAux results 0 (maxRetries + 1)

/-- The transaction body of Models.withQuotaTx: insert-if-absent the quota
    row, read its counter under the row lock, reject with ErrQuotaExceeded
    when usage ≥ limit, otherwise run the resource insert and increment the
    counter by 1. -/
def withQuotaTxBody (db : DB) (u date : Nat) (res : String) (limit : Nat)
    (insertFn : DB → Except DBErr DB) : Except DBErr DB :=
  let db1 := dailyQuotaInsert db u date res
  match dailyQuotaRead db1 u date res with
  | none => .error (.pqError "no_rows")
  | some usage =>
    if limit ≤ usage then .error .quotaExceeded
    else
      match insertFn db1 with
      | .error e => .error e
      | .ok db2 => .ok (dailyQuotaIncrement db2 u date res 1)

/-- Models.withQuotaTx: the body above wrapped in WithTxRetry(ctx, nil, 3, fn);
    sequentially every attempt starts from the same rolled-back state. -/
def withQuotaTx (db : DB) (u date : Nat) (res : String) (limit : Nat)
    (insertFn : DB → Except DBErr DB) : Except DBErr DB :=
  withTxRetry withQuotaTxMaxRetries (fun _ => withQuotaTxBody db u date res limit insertFn)

/-- Models.CreateTarget: the quota-gated Targets.Insert for resource kind
    "target". -/
def createTarget (cut : String → List String) (db : DB) (uuid serial : Nat)
    (title description notes : String) (dueDate : Option Nat) (status : String)
    (u : Nat) (date : Nat) (limit : Nat) (now : Nat) : Except DBErr DB :=
  withQuotaTx db u date "target" limit
    (fun d => targetInsert cut d uuid serial title description notes dueDate status u now)

/-! ## Listing and search (Search Ranker)

The ORDER BY of each GetAll is `<sort column> <direction>, rank DESC,
<serial / uuid> DESC`. Sort-key values are either numeric instants/serials
or title strings, with SQL NULLs ordering after every value ascending
(Postgres NULLS LAST default, flipped by DESC). -/

/-- The value of one ORDER BY column: nulls sort last ascending, numbers
    and strings within their own column type. -/
abbrev SortKey := Lex (Nat × Lex (Int ⊕ String))

/-- A non-null numeric sort value. -/
def knat (n : Nat) : SortKey := toLex (0, toLex (Sum.inl (Int.ofNat n)))

/-- A non-null string sort value. -/
def kstr (s : String) : SortKey := toLex (0, toLex (Sum.inr s))

/-- A nullable numeric sort value (NULL after every non-null, ascending). -/
def kopt : Option Nat → SortKey
  | some n => knat n
  | none => toLex (1, toLex (Sum.inl 0))

/-- The primary comparison: the caller-selected column in the selected
    direction. -/
def primLt {ρ : Type} (key : ρ → SortKey) (asc : Bool) (a b : ρ) : Prop :=
  match asc with
  | true => key a < key b
  | false => key b < key a

/-- The tie-break: rank DESC, then the monotonic identifier DESC. -/
def tieLe {ρ : Type} (rnk ser : ρ → Nat) (a b : ρ) : Prop :=
  rnk b < rnk a ∨ (rnk a = rnk b ∧ ser b ≤ ser a)

/-- The full ORDER BY relation of the GetAll queries. -/
def lexLe {ρ : Type} (key : ρ → SortKey) (asc : Bool) (rnk ser : ρ → Nat) (a b : ρ) : Prop :=
  primLt key asc a b ∨ (key a = key b ∧ tieLe rnk ser a b)

instance {ρ : Type} (key : ρ → SortKey) (asc : Bool) (rnk ser : ρ → Nat) :
    DecidableRel (lexLe key asc rnk ser) := fun a b => by
  unfold lexLe primLt tieLe
  cases asc <;> exact inferInstance

theorem lexLe_total {ρ : Type} (key : ρ → SortKey) (asc : Bool) (rnk ser : ρ → Nat)
    (a b : ρ) : lexLe key asc rnk ser a b ∨ lexLe key asc rnk ser b a := by
  unfold lexLe primLt tieLe
  rcases lt_trichotomy (key a) (key b) with h | h | h
  · cases asc
    · right; left; exact h
    · left; left; exact h
  · rcases lt_trichotomy (rnk a) (rnk b) with hr | hr | hr
    · right; right; exact ⟨h.symm, Or.inl hr⟩
    · rcases le_total (ser a) (ser b) with hs | hs
      · right; right; exact ⟨h.symm, Or.inr ⟨hr.symm, hs⟩⟩
      · left; right; exact ⟨h, Or.inr ⟨hr, hs⟩⟩
    · left; right; exact ⟨h, Or.inl hr⟩
  · cases asc
    · left; left; exact h
    · right; left; exact h

theorem lexLe_trans {ρ : Type} (key : ρ → SortKey) (asc : Bool) (rnk ser : ρ → Nat)
    (a b c : ρ) (hab : lexLe key asc rnk ser a b) (hbc : lexLe key asc rnk ser b c) :
    lexLe key asc rnk ser a c := by
  unfold lexLe primLt tieLe at hab hbc ⊢
  cases asc with
  | true =>
    rcases hab with h1 | ⟨h1, t1⟩
    · rcases hbc with h2 | ⟨h2, _⟩
      · exact Or.inl (lt_trans h1 h2)
      · exact Or.inl (h2 ▸ h1)
    · rcases hbc with h2 | ⟨h2, t2⟩
      · exact Or.inl (h1 ▸ h2)
      · refine Or.inr ⟨h1.trans h2, ?_⟩
        rcases t1 with r1 | ⟨r1, s1⟩
        · rcases t2 with r2 | ⟨r2, _⟩
          · exact Or.inl (lt_trans r2 r1)
          · exact Or.inl (r2 ▸ r1)
        · rcases t2 with r2 | ⟨r2, s2⟩
          · exact Or.inl (r1 ▸ r2)
          · exact Or.inr ⟨r1.trans r2, le_trans s2 s1⟩
  | false =>
    rcases hab with h1 | ⟨h1, t1⟩
    · rcases hbc with h2 | ⟨h2, _⟩
      · exact Or.inl (lt_trans h2 h1)
      · exact Or.inl (h2 ▸ h1)
    · rcases hbc with h2 | ⟨h2, t2⟩
      · exact Or.inl (h1 ▸ h2)
      · refine Or.inr ⟨h1.trans h2, ?_⟩
        rcases t1 with r1 | ⟨r1, s1⟩
        · rcases t2 with r2 | ⟨r2, _⟩
          · exact Or.inl (lt_trans r2 r1)
          · exact Or.inl (r2 ▸ r1)
        · rcases t2 with r2 | ⟨r2, s2⟩
          · exact Or.inl (r1 ▸ r2)
          · exact Or.inr ⟨r1.trans r2, le_trans s2 s1⟩

/-- The list-request parameters carried by data.Filters. -/
structure Filters where
  page : Nat
  pageSize : Nat
  sort : String
  sortSafelist : List String
  status : String
deriving DecidableEq, Repr

/-- Modelled from the spec: Filters.sortColumn — the repository's filters
    helper file is not under src/ (only its callers and the safelists are).
    The sort value is checked against the per-kind safelist ("validated
    against a fixed per-kind safelist"); its leading "-" is stripped to name
    the column. An unlisted value never reaches the store (none). -/
def sortColumn (f : Filters) : Option String :=
  if f.sortSafelist.contains f.sort then
    some (if f.sort.startsWith "-" then f.sort.drop 1 else f.sort)
  else none

/-- Modelled from the spec: Filters.sortDirection — a "-"-prefixed sort
    value means DESC, otherwise ASC (true here means ascending). -/
def sortAscending (f : Filters) : Bool := !(f.sort.startsWith "-")

/-- Modelled from the spec: Filters.limit — offset/limit pagination. -/
def limitQ (f : Filters) : Nat := f.pageSize

/-- Modelled from the spec: Filters.offset — offset/limit pagination. -/
def offsetQ (f : Filters) : Nat := (f.page - 1) * f.pageSize

/-- The pagination metadata returned with every listing. -/
structure Metadata where
  currentPage : Nat
  firstPage : Nat
  lastPage : Nat
  pageSize : Nat
  totalRecords : Nat
deriving DecidableEq, Repr

/-- Modelled from the spec: data.calculateMetadata over the pre-pagination
    total (empty metadata for an empty result set). -/
def calculateMetadata (totalRecords page pageSize : Nat) : Metadata :=
  if totalRecords == 0 then
    { currentPage := 0, firstPage := 0, lastPage := 0, pageSize := 0, totalRecords := 0 }
  else
    { currentPage := page, firstPage := 1,
      lastPage := (totalRecords + pageSize - 1) / pageSize,
      pageSize := pageSize, totalRecords := totalRecords }

/-- The SortSafelist for targets and actions (internal/data/status.go). -/
def SortSafelist : List String :=
  ["serial_id", "title", "created_at", "due_date", "last_active", "updated_at",
   "-serial_id", "-title", "-created_at", "-due_date", "-last_active", "-updated_at"]

/-- The SessionSortSafelist (internal/data/status.go). -/
def SessionSortSafelist : List String :=
  ["starts_at", "ends_at", "created_at", "updated_at",
   "-starts_at", "-ends_at", "-created_at", "-updated_at"]

/-- The rank expression of the paged CTE: per-script ts_rank against the
    combined title+description index, each guarded by CASE WHEN the query
    string is non-empty, summed. -/
def listRank (f : ResourceFts) (cq eq2 : String) : Nat :=
  (if cq == "" then 0 else tsRank f.chineseTsv cq) +
  (if eq2 == "" then 0 else tsRank f.englishTsv eq2)

/-- The rank expression of SessionModel.GetAll (sessions only index notes). -/
def sessionListRank (f : SessionFts) (cq eq2 : String) : Nat :=
  (if cq == "" then 0 else tsRank f.chineseNotesTsv cq) +
  (if eq2 == "" then 0 else tsRank f.englishNotesTsv eq2)

/-- The WHERE clause of TargetModel.GetAllForUser's filtered CTE: the inner
    join on targets_fts, the two per-script query guards (each disabled by
    an empty query string), the status guard, and the viewer-rank
    visibility EXISTS on the target itself. -/
def targetListPred (db : DB) (u : Nat) (cq eq2 statusF : String) (t : TargetRow) : Bool :=
  match db.targetsFts.find? (fun f => f.resourceUuid == t.uuid) with
  | none => false
  | some f =>
    (cq == "" || tsvMatch f.chineseTsv cq) &&
    (eq2 == "" || tsvMatch f.englishTsv eq2) &&
    (statusF == "" || t.status == statusF) &&
    grantB db u .target t.uuid (roleRank Role.viewer)

/-- The WHERE clause of ActionModel.GetAll's filtered CTE: fts and targets
    joins, query and status guards, the optional parent-target restriction,
    and the viewer-rank EXISTS on the action or its target. -/
def actionListPred (db : DB) (u : Nat) (cq eq2 statusF : String) (targetF : Option Nat)
    (a : ActionRow) : Bool :=
  match db.actionsFts.find? (fun f => f.resourceUuid == a.uuid),
        db.targets.find? (fun t => t.uuid == a.targetUuid) with
  | some f, some t =>
    (cq == "" || tsvMatch f.chineseTsv cq) &&
    (eq2 == "" || tsvMatch f.englishTsv eq2) &&
    (statusF == "" || a.status == statusF) &&
    (match targetF with | none => true | some tu => a.targetUuid == tu) &&
    db.acls.any (fun ac =>
      ac.userUuid == u && decide (roleRank ac.roleCode ≤ roleRank Role.viewer) &&
      ((ac.resourceType == ResType.action && ac.resourceUuid == a.uuid) ||
       (ac.resourceType == ResType.target && ac.resourceUuid == t.uuid)))
  | _, _ => false

/-- The WHERE clause of SessionModel.GetAll's filtered CTE: fts, action and
    target joins, the per-script query guards over the notes index, the
    optional parent-action restriction, and the viewer-rank EXISTS on the
    session, its action, or its target. -/
def sessionListPred (db : DB) (u : Nat) (cq eq2 : String) (actionF : Option Nat)
    (s : SessionRow) : Bool :=
  match db.sessionsFts.find? (fun f => f.sessionUuid == s.uuid),
        db.actions.find? (fun a => a.uuid == s.actionUuid) with
  | some f, some a =>
    match db.targets.find? (fun t => t.uuid == a.targetUuid) with
    | none => false
    | some t =>
      (cq == "" || tsvMatch f.chineseNotesTsv cq) &&
      (eq2 == "" || tsvMatch f.englishNotesTsv eq2) &&
      (match actionF with | none => true | some au => s.actionUuid == au) &&
      db.acls.any (fun ac =>
        ac.userUuid == u && decide (roleRank ac.roleCode ≤ roleRank Role.viewer) &&
        ((ac.resourceType == ResType.session && ac.resourceUuid == s.uuid) ||
         (ac.resourceType == ResType.action && ac.resourceUuid == a.uuid) ||
         (ac.resourceType == ResType.target && ac.resourceUuid == t.uuid)))
  | _, _ => false

/-- The sort-column key of a target/action listing (SortSafelist columns). -/
def targetSortKey (col : String) (t : TargetRow) : SortKey :=
  if col == "title" then kstr t.title
  else if col == "created_at" then knat t.createdAt
  else if col == "due_date" then kopt t.dueDate
  else if col == "last_active" then knat t.lastActive
  else if col == "updated_at" then knat t.updatedAt
  else knat t.serialId

/-- The sort-column key of an action listing (SortSafelist columns). -/
def actionSortKey (col : String) (a : ActionRow) : SortKey :=
  if col == "title" then kstr a.title
  else if col == "created_at" then knat a.createdAt
  else if col == "due_date" then kopt a.dueDate
  else if col == "last_active" then knat a.lastActive
  else if col == "updated_at" then knat a.updatedAt
  else knat a.serialId

/-- The sort-column key of a session listing (SessionSortSafelist columns). -/
def sessionSortKey (col : String) (s : SessionRow) : SortKey :=
  if col == "starts_at" then knat s.startsAt
  else if col == "ends_at" then kopt s.endsAt
  else if col == "created_at" then knat s.createdAt
  else knat s.updatedAt

/-- The rank of a target row in the paged CTE (via its fts join). -/
def targetRankOf (db : DB) (cq eq2 : String) (t : TargetRow) : Nat :=
  match db.targetsFts.find? (fun f => f.resourceUuid == t.uuid) with
  | some f => listRank f cq eq2
  | none => 0

/-- The rank of an action row in the paged CTE (via its fts join). -/
def actionRankOf (db : DB) (cq eq2 : String) (a : ActionRow) : Nat :=
  match db.actionsFts.find? (fun f => f.resourceUuid == a.uuid) with
  | some f => listRank f cq eq2
  | none => 0

/-- The rank of a session row in the paged CTE (via its fts join). -/
def sessionRankOf (db : DB) (cq eq2 : String) (s : SessionRow) : Nat :=
  match db.sessionsFts.find? (fun f => f.sessionUuid == s.uuid) with
  | some f => sessionListRank f cq eq2
  | none => 0

/-- TargetModel.GetAllForUser: filtered CTE → total over the whole filtered
    set → ORDER BY sort column/direction, rank DESC, serial_id DESC →
    LIMIT/OFFSET page; metadata from the pre-pagination total. An unsafe
    sort value never reaches the store (the sortColumn helper refuses it). -/
def targetsGetAllForUser (db : DB) (tok : Tokenizer) (f : Filters) (u : Nat) :
    Except DBErr (List TargetRow × Metadata) :=
  match sortColumn f with
  | none => .error (.pqError "undefined_column")
  | some col =>
    let filtered := db.targets.filter (targetListPred db u tok.chinese tok.english f.status)
    let ordered := filtered.insertionSort
      (lexLe (targetSortKey col) (sortAscending f)
        (targetRankOf db tok.chinese tok.english) TargetRow.serialId)
    .ok ((ordered.drop (offsetQ f)).take (limitQ f),
         calculateMetadata filtered.length f.page f.pageSize)

/-- ActionModel.GetAll: same shape, with the optional parent-target scope
    and the action/target visibility EXISTS. -/
def actionsGetAll (db : DB) (tok : Tokenizer) (f : Filters) (targetF : Option Nat)
    (u : Nat) : Except DBErr (List ActionRow × Metadata) :=
  match sortColumn f with
  | none => .error (.pqError "undefined_column")
  | some col =>
    let filtered := db.actions.filter
      (actionListPred db u tok.chinese tok.english f.status targetF)
    let ordered := filtered.insertionSort
      (lexLe (actionSortKey col) (sortAscending f)
        (actionRankOf db tok.chinese tok.english) ActionRow.serialId)
    .ok ((ordered.drop (offsetQ f)).take (limitQ f),
         calculateMetadata filtered.length f.page f.pageSize)

/-- SessionModel.GetAll: same shape, with the optional parent-action scope;
    the final tie-break identifier is s.uuid (a time-ordered uuidv7). -/
def sessionsGetAll (db : DB) (tok : Tokenizer) (f : Filters) (actionF : Option Nat)
    (u : Nat) : Except DBErr (List SessionRow × Metadata) :=
  match sortColumn f with
  | none => .error (.pqError "undefined_column")
  | some col =>
    let filtered := db.sessions.filter (sessionListPred db u tok.chinese tok.english actionF)
    let ordered := filtered.insertionSort
      (lexLe (sessionSortKey col) (sortAscending f)
        (sessionRankOf db tok.chinese tok.english) SessionRow.uuid)
    .ok ((ordered.drop (offsetQ f)).take (limitQ f),
         calculateMetadata filtered.length f.page f.pageSize)

/-- listTargetsHandler's search path: the search phrase is tokenized once
    and its per-script streams become the two query strings of
    GetAllForUser. -/
def listTargets (cut : String → List String) (db : DB) (u : Nat) (search : String)
    (f : Filters) : Except DBErr (List TargetRow × Metadata) :=
  targetsGetAllForUser db (tokenizerNew cut search) f u

/-! ## Operation traces over target rows (for the version invariant) -/

/-- The version-stamped mutations of the targets table. -/
inductive TargetOp where
  | insert (uuid serial : Nat) (title description notes : String)
      (dueDate : Option Nat) (status : String) (u : Nat) (now : Nat)
  | update (t : TargetRow) (fts : ResourceFts) (u : Nat) (now : Nat)
deriving Repr

/-- Executing one mutation against the store: a failed statement rolls the
    transaction back, leaving the state unchanged. -/
def applyTargetOp (cut : String → List String) (db : DB) : TargetOp → DB
  | .insert uuid serial title description notes dueDate status u now =>
    match targetInsert cut db uuid serial title description notes dueDate status u now with
    | .ok db' => db'
    | .error _ => db
  | .update t fts u now =>
    match targetUpdate db t fts u now with
    | .ok (_, db') => db'
    | .error _ => db

/-- The first target row with a given uuid (the primary-key lookup). -/
def findTarget (db : DB) (uuid : Nat) : Option TargetRow :=
  db.targets.find? (fun t => t.uuid == uuid)

/-- Primary-key discipline of the targets table: uuids are pairwise
    distinct. -/
def targetsPkUnique (db : DB) : Prop :=
  (db.targets.map TargetRow.uuid).Nodup

/-- The spec's sentence for the free-text filter, formalised literally for
    comparison with the conjunctive guards of the queries: "a resource
    matches if either non-empty query string matches its corresponding
    index (empty query strings auto-match everything)". -/
def specEitherMatch (cq eq2 : String) (cMatch eMatch : Bool) : Bool :=
  (cq != "" && cMatch) || (eq2 != "" && eMatch) || (cq == "" && eq2 == "")

/-- The number of occurrences of query terms of `q` in a token list. -/
def matchCount (tokens : List String) (q : String) : Nat :=
  ((queryTerms q).map (fun w => (tokens.filter (fun x => x == w)).length)).sum

/-! ## Concrete store states for evaluation -/

/-- A store with no rows. -/
def emptyDB : DB := ⟨[], [], [], [], [], [], [], []⟩

/-- A degenerate segmenter (whole input as one token) for concrete runs. -/
def cut0 : String → List String := fun s => [s]

/-- A fresh target row as created by Insert (version 1). -/
def c2row : TargetRow :=
  { uuid := 1, serialId := 1, title := "t", description := "", notes := "",
    createdAt := 0, dueDate := none, updatedAt := 0, lastActive := 0,
    version := 1, status := "queued" }

/-- A store where user 7 holds only a viewer grant on target 1. -/
def c2dbViewer : DB := { emptyDB with targets := [c2row], acls := [⟨7, .target, 1, .viewer⟩] }

/-- A store where user 4 holds an editor grant on target 1. -/
def c2dbEditor : DB := { emptyDB with targets := [c2row], acls := [⟨4, .target, 1, .editor⟩] }

/-- The empty JSON patch. -/
def c2patch : TargetPatch := ⟨none, none, none, none, none⟩

/-- An empty fts row for target 1. -/
def c2fts : ResourceFts := ⟨1, [], [], [], []⟩

/-- A fresh target row, for the version-trace witness. -/
def c5row : TargetRow :=
  { uuid := 1, serialId := 1, title := "t", description := "", notes := "",
    createdAt := 0, dueDate := none, updatedAt := 0, lastActive := 0,
    version := 1, status := "queued" }

/-- The store produced by inserting c5row for user 4 into the empty store. -/
def c5dbAfter : DB :=
  { emptyDB with targets := [c5row], acls := [⟨4, .target, 1, .owner⟩],
                 targetsFts := [genResourceFts cut0 1 "t" "" ""] }

/-- A target whose chinese combined index holds one title lexeme. -/
def c6fts : ResourceFts := ⟨1, [⟨"中", 10⟩], [], [], []⟩

/-- The target row carrying c6fts. -/
def c6row : TargetRow :=
  { uuid := 1, serialId := 1, title := "中", description := "", notes := "",
    createdAt := 0, dueDate := none, updatedAt := 0, lastActive := 0,
    version := 1, status := "queued" }

/-- A store where user 7 can view target 1, whose index matches "中" in the
    chinese stream but nothing in the english stream. -/
def c6db : DB :=
  { emptyDB with targets := [c6row], targetsFts := [c6fts],
                 acls := [⟨7, .target, 1, .viewer⟩] }

/-- An action under target 1, version 1, for the re-parenting witness. -/
def c9action : ActionRow :=
  { uuid := 10, serialId := 1, title := "a", description := "", notes := "",
    createdAt := 0, updatedAt := 0, lastActive := 0, dueDate := none,
    status := "queued", version := 1, targetUuid := 1 }

/-- The same action re-submitted with its parent changed to target 2. -/
def c9submitted : ActionRow := { c9action with targetUuid := 2 }

/-- A store where user 5 holds only editor grants on targets 1 and 2 —
    strictly weaker than the owner rank re-parenting demands. -/
def c9db : DB :=
  { emptyDB with actions := [c9action],
                 acls := [⟨5, .target, 1, .editor⟩, ⟨5, .target, 2, .editor⟩] }

/-- An empty action fts row. -/
def c9fts : ResourceFts := ⟨10, [], [], [], []⟩

/-! # Theorems -/

/-- C10: for every input, the Latin stream is the maximal ASCII-alphanumeric
    runs joined by single spaces in input order, and the ideographic stream
    segments the concatenation of all Han runs (equivalently, the input
    filtered to its Han characters); consequently inputs whose Han runs
    concatenate equally — e.g. two runs separated by other text versus the
    same runs adjacent — are segmented identically. -/
theorem c10_tokenizer_streams (cut : String → List String) (s s₁ s₂ : String) :
    ((tokenizerNew cut s).english = String.intercalate " " (findAllRuns isAlnumAscii s)) ∧
    ((tokenizerNew cut s).chinese =
      String.intercalate " " (cut (String.mk (s.toList.filter isHan)))) ∧
    (s₁.toList.filter isHan = s₂.toList.filter isHan →
      (tokenizerNew cut s₁).chinese = (tokenizerNew cut s₂).chinese) := by
  refine ⟨rfl, ?_, ?_⟩
  · show String.intercalate " " (cut (String.join (findAllRuns isHan s))) = _
    rw [rawChinese_eq_filter]
  · intro h
    show String.intercalate " " (cut (String.join (findAllRuns isHan s₁))) =
         String.intercalate " " (cut (String.join (findAllRuns isHan s₂)))
    rw [rawChinese_eq_filter, rawChinese_eq_filter, h]

/-- Witness for C10 at a concrete input: "ab中X文" has Han runs "中" and
    "文" separated by Latin text, segmented exactly like the adjacent "中文". -/
theorem c10_tokenizer_streams_witness :
    "ab中X文".toList.filter isHan = "中文".toList.filter isHan ∧
    (tokenizerNew (fun x => [x]) "ab中X文").chinese =
      (tokenizerNew (fun x => [x]) "中文").chinese :=
  ⟨by decide, (c10_tokenizer_streams (fun x => [x]) "" "ab中X文" "中文").2.2 (by decide)⟩

/-- The acl EXISTS of ActionModel.Get, as a proposition. -/
theorem actionAclExists_iff (db : DB) (u : Nat) (mr : Role) (a : ActionRow) (tu : Nat) :
    (db.acls.any (fun ac =>
        ac.userUuid == u && decide (roleRank ac.roleCode ≤ roleRank mr) &&
        ((ac.resourceType == ResType.action && ac.resourceUuid == a.uuid) ||
         (ac.resourceType == ResType.target && ac.resourceUuid == tu))) = true)
    ↔ ∃ ac ∈ db.acls, ac.userUuid = u ∧ roleRank ac.roleCode ≤ roleRank mr ∧
        ((ac.resourceType = .action ∧ ac.resourceUuid = a.uuid) ∨
         (ac.resourceType = .target ∧ ac.resourceUuid = tu)) := by
  simp [List.any_eq_true, Bool.and_eq_true, Bool.or_eq_true, beq_iff_eq,
    decide_eq_true_eq, and_assoc]

/-- The acl EXISTS of SessionModel.Get, as a proposition. -/
theorem sessionAclExists_iff (db : DB) (u : Nat) (mr : Role) (s : SessionRow)
    (au tu : Nat) :
    (db.acls.any (fun ac =>
        ac.userUuid == u && decide (roleRank ac.roleCode ≤ roleRank mr) &&
        ((ac.resourceType == ResType.session && ac.resourceUuid == s.uuid) ||
         (ac.resourceType == ResType.action && ac.resourceUuid == au) ||
         (ac.resourceType == ResType.target && ac.resourceUuid == tu))) = true)
    ↔ ∃ ac ∈ db.acls, ac.userUuid = u ∧ roleRank ac.roleCode ≤ roleRank mr ∧
        ((ac.resourceType = .session ∧ ac.resourceUuid = s.uuid) ∨
         (ac.resourceType = .action ∧ ac.resourceUuid = au) ∨
         (ac.resourceType = .target ∧ ac.resourceUuid = tu)) := by
  simp [List.any_eq_true, Bool.and_eq_true, Bool.or_eq_true, beq_iff_eq,
    decide_eq_true_eq, and_assoc, or_assoc]

/-- C1: for a session or action whose hierarchy chain exists, Get returns
    the row iff the user holds a grant of rank ≤ rank(minRole) on the
    resource itself or on an ancestor in its chain (parent action and
    grandparent target for a session, parent target for an action) — so a
    single grant on the top-level target suffices — and with no applicable
    grant the result is the same ErrRecordNotFound as for an absent id. -/
theorem c1_hierarchical_get_access :
    (∀ (db : DB) (aid u : Nat) (mr : Role) (a : ActionRow) (t : TargetRow),
      db.actions.find? (fun x => x.uuid == aid) = some a →
      db.targets.find? (fun x => x.uuid == a.targetUuid) = some t →
      ((actionGet db aid u mr = .ok a ↔
        ∃ ac ∈ db.acls, ac.userUuid = u ∧ roleRank ac.roleCode ≤ roleRank mr ∧
          ((ac.resourceType = .action ∧ ac.resourceUuid = a.uuid) ∨
           (ac.resourceType = .target ∧ ac.resourceUuid = a.targetUuid))) ∧
       (¬ (∃ ac ∈ db.acls, ac.userUuid = u ∧ roleRank ac.roleCode ≤ roleRank mr ∧
          ((ac.resourceType = .action ∧ ac.resourceUuid = a.uuid) ∨
           (ac.resourceType = .target ∧ ac.resourceUuid = a.targetUuid))) →
        actionGet db aid u mr = .error .recordNotFound)))
    ∧
    (∀ (db : DB) (sid u : Nat) (mr : Role) (s : SessionRow) (a : ActionRow) (t : TargetRow),
      db.sessions.find? (fun x => x.uuid == sid) = some s →
      db.actions.find? (fun x => x.uuid == s.actionUuid) = some a →
      db.targets.find? (fun x => x.uuid == a.targetUuid) = some t →
      ((sessionGet db sid u mr = .ok s ↔
        ∃ ac ∈ db.acls, ac.userUuid = u ∧ roleRank ac.roleCode ≤ roleRank mr ∧
          ((ac.resourceType = .session ∧ ac.resourceUuid = s.uuid) ∨
           (ac.resourceType = .action ∧ ac.resourceUuid = a.uuid) ∨
           (ac.resourceType = .target ∧ ac.resourceUuid = a.targetUuid))) ∧
       (¬ (∃ ac ∈ db.acls, ac.userUuid = u ∧ roleRank ac.roleCode ≤ roleRank mr ∧
          ((ac.resourceType = .session ∧ ac.resourceUuid = s.uuid) ∨
           (ac.resourceType = .action ∧ ac.resourceUuid = a.uuid) ∨
           (ac.resourceType = .target ∧ ac.resourceUuid = a.targetUuid))) →
        sessionGet db sid u mr = .error .recordNotFound))) := by
  constructor
  · intro db aid u mr a t ha ht
    have htu : t.uuid = a.targetUuid := by
      have := List.find?_some ht
      simpa [beq_iff_eq] using this
    unfold actionGet
    simp only [ha, ht]
    by_cases hc : db.acls.any (fun ac =>
        ac.userUuid == u && decide (roleRank ac.roleCode ≤ roleRank mr) &&
        ((ac.resourceType == ResType.action && ac.resourceUuid == a.uuid) ||
         (ac.resourceType == ResType.target && ac.resourceUuid == t.uuid))) = true
    · rw [if_pos hc]
      have hex := (actionAclExists_iff db u mr a t.uuid).mp hc
      rw [htu] at hex
      exact ⟨⟨fun _ => hex, fun _ => rfl⟩, fun hn => absurd hex hn⟩
    · rw [if_neg hc]
      have hnex := fun hx => hc ((actionAclExists_iff db u mr a t.uuid).mpr (htu ▸ hx))
      exact ⟨⟨fun h => absurd h (by simp), fun hx => absurd hx hnex⟩, fun _ => rfl⟩
  · intro db sid u mr s a t hs ha ht
    have htu : t.uuid = a.targetUuid := by
      have := List.find?_some ht
      simpa [beq_iff_eq] using this
    unfold sessionGet
    simp only [hs, ha, ht]
    by_cases hc : db.acls.any (fun ac =>
        ac.userUuid == u && decide (roleRank ac.roleCode ≤ roleRank mr) &&
        ((ac.resourceType == ResType.session && ac.resourceUuid == s.uuid) ||
         (ac.resourceType == ResType.action && ac.resourceUuid == a.uuid) ||
         (ac.resourceType == ResType.target && ac.resourceUuid == t.uuid))) = true
    · rw [if_pos hc]
      have hex := (sessionAclExists_iff db u mr s a.uuid t.uuid).mp hc
      rw [htu] at hex
      exact ⟨⟨fun _ => hex, fun _ => rfl⟩, fun hn => absurd hex hn⟩
    · rw [if_neg hc]
      have hnex := fun hx => hc ((sessionAclExists_iff db u mr s a.uuid t.uuid).mpr (htu ▸ hx))
      exact ⟨⟨fun h => absurd h (by simp), fun hx => absurd hx hnex⟩, fun _ => rfl⟩

/-- C1 witness: with a single viewer grant on the top-level target, the
    grandchild session is readable at minRole viewer. -/
theorem c1_hierarchical_get_access_witness :
    sessionGet
      { emptyDB with
        targets := [c2row],
        actions := [c9action],
        sessions := [⟨100, 10, 0, none, 0, 0, "", 1⟩],
        acls := [⟨7, .target, 1, .viewer⟩] } 100 7 Role.viewer =
      .ok ⟨100, 10, 0, none, 0, 0, "", 1⟩ := by
  have h := (c1_hierarchical_get_access.2
    { emptyDB with
      targets := [c2row],
      actions := [c9action],
      sessions := [⟨100, 10, 0, none, 0, 0, "", 1⟩],
      acls := [⟨7, .target, 1, .viewer⟩] }
    100 7 Role.viewer ⟨100, 10, 0, none, 0, 0, "", 1⟩ c9action c2row
    (by decide) (by decide) (by decide)).1.mpr
  exact h ⟨⟨7, .target, 1, .viewer⟩, by decide, by decide, by decide,
    Or.inr (Or.inr ⟨rfl, by decide⟩)⟩

/-- C2 counterexample: target 1 exists and user 7 (holding only a viewer
    grant) submits an update with the correct expected version; the
    combined version-and-permission predicate of the conditional write
    fails on the permission side, yet the outcome is NotFound (from the
    handler's pre-authorization read), not the EditConflict the claim
    prescribes for every existing identifier. -/
theorem c2_counterexample :
    updateTargetEndpoint cut0 c2dbViewer 1 7 c2patch 5 = .error .recordNotFound ∧
    (∃ t ∈ c2dbViewer.targets, t.uuid = 1) ∧
    DBErr.recordNotFound ≠ DBErr.editConflict ∧
    targetUpdate c2dbViewer c2row c2fts 7 5 = .error .editConflict ∧
    c2row.version = 1 ∧
    targetUpdate emptyDB c2row c2fts 7 5 = .error .editConflict ∧
    emptyDB.targets = [] :=
  ⟨rfl, ⟨c2row, by decide, rfl⟩, by decide, rfl, rfl, rfl, rfl⟩

/-- C2 (amended): the conditional write itself reports every zero-row match
    as EditConflict — whether the version is stale, the requester lacks a
    rank ≤ editor grant, or the identifier is absent — and a matched write
    returns version + 1; NotFound arises from the handler's preceding
    authorization read (identifier absent, or no rank ≤ editor grant), not
    from the versioned update. -/
theorem c2_update_outcomes (db : DB) (t : TargetRow) (fts : ResourceFts)
    (u now tid : Nat) (cut : String → List String) (p : TargetPatch) :
    ((∃ old ∈ db.targets, targetUpdatePred db t u old = true) →
       ∃ r db', targetUpdate db t fts u now = .ok (r, db') ∧ r.version = t.version + 1) ∧
    ((¬ ∃ old ∈ db.targets, targetUpdatePred db t u old = true) →
       targetUpdate db t fts u now = .error .editConflict) ∧
    (∀ old, targetUpdatePred db t u old =
       (old.uuid == t.uuid && old.version == t.version &&
        grantB db u .target t.uuid (roleRank Role.editor))) ∧
    (targetGet db tid u Role.editor = .error .recordNotFound →
       updateTargetEndpoint cut db tid u p now = .error .recordNotFound) ∧
    (db.targets.find? (fun r => r.uuid == tid) = none →
       targetGet db tid u Role.editor = .error .recordNotFound) := by
  refine ⟨?_, ?_, fun _ => rfl, ?_, ?_⟩
  · intro hex
    have hsome : (db.targets.find? (targetUpdatePred db t u)).isSome :=
      List.find?_isSome.mpr hex
    obtain ⟨old, hfind⟩ := Option.isSome_iff_exists.mp hsome
    have hpred := List.find?_some hfind
    have hver : old.version = t.version := by
      have := hpred
      simp only [targetUpdatePred, Bool.and_eq_true, beq_iff_eq] at this
      exact this.1.2
    unfold targetUpdate
    rw [hfind]
    refine ⟨_, _, rfl, ?_⟩
    show old.version + 1 = t.version + 1
    rw [hver]
  · intro hnone
    have : db.targets.find? (targetUpdatePred db t u) = none :=
      List.find?_eq_none.mpr (fun x hx hpx => hnone ⟨x, hx, hpx⟩)
    unfold targetUpdate
    rw [this]
  · intro h
    unfold updateTargetEndpoint
    rw [h]
  · intro h
    unfold targetGet
    rw [h]

/-- C2 witness: an editor-granted user updating at the observed version
    succeeds and receives version 2. -/
theorem c2_update_outcomes_witness :
    ∃ r db', targetUpdate c2dbEditor c2row c2fts 4 9 = .ok (r, db') ∧
      r.version = c2row.version + 1 :=
  (c2_update_outcomes c2dbEditor c2row c2fts 4 9 0 cut0 c2patch).1 (by decide)

/-- Altering only quota_used leaves the quota key untouched. -/
theorem quotaKeyMatch_set_used (u date : Nat) (res : String) (q : QuotaRow) (x : Nat) :
    quotaKeyMatch u date res { q with quotaUsed := x } = quotaKeyMatch u date res q := rfl

/-- After the idempotent insert, the locked read returns the prior counter
    (0 when the row was created by this insert). -/
theorem dailyQuotaRead_insert (db : DB) (u date : Nat) (res : String) :
    dailyQuotaRead (dailyQuotaInsert db u date res) u date res =
      some ((dailyQuotaRead db u date res).getD 0) := by
  unfold dailyQuotaInsert dailyQuotaRead
  by_cases h : db.dailyQuota.any (quotaKeyMatch u date res)
  · rw [if_pos h]
    have hsome : (db.dailyQuota.find? (quotaKeyMatch u date res)).isSome :=
      List.find?_isSome.mpr (List.any_eq_true.mp h)
    obtain ⟨q, hq⟩ := Option.isSome_iff_exists.mp hsome
    rw [hq]
    rfl
  · rw [if_neg h]
    have hf : db.dailyQuota.any (quotaKeyMatch u date res) = false := by
      simpa using h
    have hnone : db.dailyQuota.find? (quotaKeyMatch u date res) = none :=
      List.find?_eq_none.mpr (List.any_eq_false.mp hf)
    simp [List.find?_append, hnone, quotaKeyMatch]

/-- The increment bumps exactly the matched counter. -/
theorem find?_quota_increment (l : List QuotaRow) (u date : Nat) (res : String) (inc : Nat) :
    ((l.map (fun q => if quotaKeyMatch u date res q then
          { q with quotaUsed := q.quotaUsed + inc } else q)).find?
        (quotaKeyMatch u date res)).map QuotaRow.quotaUsed =
    ((l.find? (quotaKeyMatch u date res)).map QuotaRow.quotaUsed).map (· + inc) := by
  induction l with
  | nil => rfl
  | cons q l ih =>
    by_cases h : quotaKeyMatch u date res q
    · have h' : quotaKeyMatch u date res { q with quotaUsed := q.quotaUsed + inc } = true := by
        rw [quotaKeyMatch_set_used]
        exact h
      simp only [List.map_cons, if_pos h]
      rw [List.find?_cons_of_pos _ h', List.find?_cons_of_pos _ h]
      rfl
    · have h' : ¬ quotaKeyMatch u date res q = true := h
      simp only [List.map_cons, if_neg h]
      rw [List.find?_cons_of_neg _ h', List.find?_cons_of_neg _ h']
      exact ih

theorem dailyQuotaRead_increment (db : DB) (u date : Nat) (res : String) (inc : Nat) :
    dailyQuotaRead (dailyQuotaIncrement db u date res inc) u date res =
      (dailyQuotaRead db u date res).map (· + inc) := by
  unfold dailyQuotaRead dailyQuotaIncrement
  exact find?_quota_increment db.dailyQuota u date res inc

/-- C3 counterexample: withQuotaTx opens its transaction with nil TxOptions
    (`m.WithTxRetry(ctx, nil, 3, fn)`) — the store's default isolation
    level — not a serializable transaction as the claim states; the quota
    row is serialized by its explicit row lock instead. -/
theorem c3_counterexample :
    withQuotaTxOpts = none ∧
    withQuotaTxOpts ≠ some ⟨IsolationLevel.levelSerializable, false⟩ :=
  ⟨rfl, by decide⟩

/-- C3 (amended): inside one store transaction (default isolation, retried
    by WithTxRetry, the quota row serialized by its row lock), the steps run
    in order: insert-if-absent the (user, kind, day) row; read its counter
    under the lock — the prior usage, 0 for a fresh row; if usage ≥ limit
    abort with QuotaExceeded (the rollback leaves the caller's state, so
    the counter is unchanged); otherwise run the permission-checked insert
    and increment the counter by exactly 1 before commit. -/
theorem c3_quota_gated_create (db : DB) (u date : Nat) (res : String) (limit : Nat)
    (insertFn : DB → Except DBErr DB)
    (hq : ∀ d d', insertFn d = .ok d' → d'.dailyQuota = d.dailyQuota) :
    (dailyQuotaRead (dailyQuotaInsert db u date res) u date res =
       some ((dailyQuotaRead db u date res).getD 0)) ∧
    (limit ≤ (dailyQuotaRead db u date res).getD 0 →
       withQuotaTxBody db u date res limit insertFn = .error .quotaExceeded) ∧
    (∀ db2, (dailyQuotaRead db u date res).getD 0 < limit →
       insertFn (dailyQuotaInsert db u date res) = .ok db2 →
       withQuotaTxBody db u date res limit insertFn =
         .ok (dailyQuotaIncrement db2 u date res 1) ∧
       dailyQuotaRead (dailyQuotaIncrement db2 u date res 1) u date res =
         some ((dailyQuotaRead db u date res).getD 0 + 1)) ∧
    (∀ e, insertFn (dailyQuotaInsert db u date res) = .error e →
       withQuotaTxBody db u date res limit insertFn = .error .quotaExceeded ∨
       withQuotaTxBody db u date res limit insertFn = .error e) ∧
    (withQuotaTx db u date res limit insertFn =
       withTxRetry withQuotaTxMaxRetries
         (fun _ => withQuotaTxBody db u date res limit insertFn)) := by
  refine ⟨dailyQuotaRead_insert db u date res, ?_, ?_, ?_, rfl⟩
  · intro hle
    simp only [withQuotaTxBody, dailyQuotaRead_insert]
    rw [if_pos hle]
  · intro db2 hlt hins
    constructor
    · simp only [withQuotaTxBody, dailyQuotaRead_insert]
      rw [if_neg (not_le.mpr hlt), hins]
    · have hq2 := hq _ _ hins
      have hread : dailyQuotaRead db2 u date res =
          some ((dailyQuotaRead db u date res).getD 0) := by
        unfold dailyQuotaRead
        rw [hq2]
        exact dailyQuotaRead_insert db u date res
      rw [dailyQuotaRead_increment, hread]
      rfl
  · intro e he
    by_cases hl : limit ≤ (dailyQuotaRead db u date res).getD 0
    · left
      simp only [withQuotaTxBody, dailyQuotaRead_insert]
      rw [if_pos hl]
    · right
      simp only [withQuotaTxBody, dailyQuotaRead_insert]
      rw [if_neg hl, he]

/-- C3 witness: under limit 5 with a fresh counter, the gated create
    commits the insert and the counter reads back 1. -/
theorem c3_quota_gated_create_witness :
    withQuotaTxBody emptyDB 4 0 "target" 5 Except.ok =
      .ok (dailyQuotaIncrement (dailyQuotaInsert emptyDB 4 0 "target") 4 0 "target" 1) ∧
    dailyQuotaRead (dailyQuotaIncrement (dailyQuotaInsert emptyDB 4 0 "target")
      4 0 "target" 1) 4 0 "target" = some 1 := by
  have h := (c3_quota_gated_create emptyDB 4 0 "target" 5 Except.ok
      (fun d d' hdd => by cases hdd; rfl)).2.2.1
    (dailyQuotaInsert emptyDB 4 0 "target") (by decide) rfl
  exact h

/-- The retry loop ends in the fmt.Errorf failure when every attempt within
    the bound fails with a retryable error. -/
theorem withTxRetryAux_exhaust {α : Type} (results : Nat → Except DBErr α) :
    ∀ (fuel start : Nat),
      (∀ n, start ≤ n → n < start + fuel →
        ∃ e', results n = .error e' ∧ retryable e' = true) →
      withTxRetryAux results start fuel = .error .txFailedAfterRetries := by
  intro fuel
  induction fuel with
  | zero => intro start _; rfl
  | succ f ih =>
    intro start h
    obtain ⟨e', he, hr⟩ := h start (Nat.le_refl _) (by omega)
    simp only [withTxRetryAux, he, hr, if_true]
    exact ih (start + 1) (fun n h1 h2 => h n (by omega) (by omega))

/-- C4 counterexample: a unique-key violation (Postgres class 23505) is
    neither a serialization conflict nor a timeout, yet WithTxRetry's
    classifier (any *pq.Error) retries after it — the second attempt's
    value is returned. -/
theorem c4_counterexample :
    withTxRetry 3 (fun n => if n == 0 then Except.error (DBErr.pqError "23505")
      else Except.ok (7 : Nat)) = Except.ok 7 ∧
    transientPerSpec (DBErr.pqError "23505") = false ∧
    retryable (DBErr.pqError "23505") = true :=
  ⟨rfl, rfl, rfl⟩

/-- C4 (amended): WithTxRetry retries exactly when the failure is a
    Postgres driver error (of any code) or a context deadline — a strict
    superset of the spec's transient class; every other error, QuotaExceeded
    included, is returned on its first occurrence without retry; the backoff
    (attempt+1)·50ms strictly increases; and when all maxRetries+1 attempts
    fail retryably the loop surfaces the retries-exhausted failure. -/
theorem c4_retry_classification {α : Type} (maxR : Nat) (results : Nat → Except DBErr α)
    (e : DBErr) :
    (results 0 = .error e → retryable e = false → withTxRetry maxR results = .error e) ∧
    retryable DBErr.quotaExceeded = false ∧
    (∀ e', retryable e' = true ↔ (∃ c, e' = .pqError c) ∨ e' = .deadlineExceeded) ∧
    (∀ m n, m < n → backoffMs m < backoffMs n) ∧
    ((∀ n, n ≤ maxR → ∃ e', results n = .error e' ∧ retryable e' = true) →
       withTxRetry maxR results = .error .txFailedAfterRetries) := by
  refine ⟨?_, rfl, ?_, ?_, ?_⟩
  · intro h0 hr
    unfold withTxRetry
    simp only [withTxRetryAux, h0, hr, Bool.false_eq_true, if_false]
  · intro e'
    cases e' <;> simp [retryable]
  · intro m n h
    unfold backoffMs
    omega
  · intro h
    unfold withTxRetry
    exact withTxRetryAux_exhaust results (maxR + 1) 0 (fun n _ h2 => h n (by omega))

/-- C4 witness: a QuotaExceeded rejection is returned on the first attempt. -/
theorem c4_retry_classification_witness :
    withTxRetry 3 (fun _ => (Except.error DBErr.quotaExceeded : Except DBErr Nat)) =
      Except.error DBErr.quotaExceeded :=
  (c4_retry_classification 3 (fun _ => Except.error DBErr.quotaExceeded)
    DBErr.quotaExceeded).1 rfl rfl

/-- find? commutes with a map that does not disturb the predicate. -/
theorem find?_map_of_pred_eq {α : Type} (g : α → α) (p : α → Bool) (l : List α)
    (hp : ∀ r, p (g r) = p r) : (l.map g).find? p = (l.find? p).map g := by
  induction l with
  | nil => rfl
  | cons a l ih =>
    by_cases h : p a
    · rw [List.map_cons, List.find?_cons_of_pos _ (by rw [hp]; exact h),
        List.find?_cons_of_pos _ h]
      rfl
    · rw [List.map_cons, List.find?_cons_of_neg _ (by rw [hp]; exact h),
        List.find?_cons_of_neg _ h]
      exact ih

/-- Shape of a successful conditional target update: the returned row bumps
    the expected version by exactly 1, carries the submitted uuid, and
    replaces precisely the predicate-matched rows. -/
theorem targetUpdate_ok_targets (db : DB) (t : TargetRow) (fts : ResourceFts)
    (u now : Nat) (r : TargetRow) (db' : DB)
    (h : targetUpdate db t fts u now = .ok (r, db')) :
    r.version = t.version + 1 ∧
    db'.targets = db.targets.map (fun x => if targetUpdatePred db t u x then r else x) ∧
    r.uuid = t.uuid := by
  unfold targetUpdate at h
  cases hm : db.targets.find? (targetUpdatePred db t u) with
  | none => rw [hm] at h; cases h
  | some old =>
    rw [hm] at h
    have hpred := List.find?_some hm
    simp only [targetUpdatePred, Bool.and_eq_true, beq_iff_eq] at hpred
    have hio := Except.ok.inj h
    have hr : _ = r := congrArg Prod.fst hio
    have hdb : _ = db' := congrArg Prod.snd hio
    refine ⟨?_, ?_, ?_⟩
    · rw [← hr]
      show old.version + 1 = t.version + 1
      rw [hpred.1.2]
    · rw [← hdb, ← hr]
    · rw [← hr]
      show old.uuid = t.uuid
      exact hpred.1.1

/-- Shape of a successful target insert: the uuid was fresh and the new
    row (version 1, the column default) is appended. -/
theorem targetInsert_ok (cut : String → List String) (db : DB) (uuid serial : Nat)
    (title description notes : String) (dueDate : Option Nat) (status : String)
    (u now : Nat) (db' : DB)
    (h : targetInsert cut db uuid serial title description notes dueDate status u now =
      .ok db') :
    db.targets.find? (fun t => t.uuid == uuid) = none ∧
    db'.targets = db.targets ++
      [{ uuid := uuid, serialId := serial, title := title, description := description,
         notes := notes, createdAt := now, dueDate := dueDate, updatedAt := now,
         lastActive := now, version := 1, status := status }] := by
  unfold targetInsert at h
  by_cases hdup : db.targets.any (fun t => t.uuid == uuid)
  · rw [if_pos hdup] at h
    cases h
  · rw [if_neg hdup] at h
    cases h
    exact ⟨List.find?_eq_none.mpr (List.any_eq_false.mp (by simpa using hdup)), rfl⟩

/-- One mutation moves a tracked row's version by 0 (failed or unrelated
    statement) or exactly +1 (matched update); the row never disappears. -/
theorem findTarget_applyOp (cut : String → List String) (db : DB) (op : TargetOp)
    (uuid : Nat) (tr : TargetRow) (h : findTarget db uuid = some tr) :
    ∃ tr', findTarget (applyTargetOp cut db op) uuid = some tr' ∧
      (tr'.version = tr.version ∨ tr'.version = tr.version + 1) := by
  cases op with
  | insert uuid2 serial title description notes dueDate status u now =>
    cases hins : targetInsert cut db uuid2 serial title description notes dueDate status u now with
    | error e =>
      simp only [applyTargetOp, hins]
      exact ⟨tr, h, Or.inl rfl⟩
    | ok db2 =>
      obtain ⟨hnone, htg⟩ := targetInsert_ok cut db uuid2 serial title description notes
        dueDate status u now db2 hins
      simp only [applyTargetOp, hins]
      refine ⟨tr, ?_, Or.inl rfl⟩
      unfold findTarget
      rw [htg, List.find?_append]
      unfold findTarget at h
      rw [h]
      rfl
  | update t fts u now =>
    cases hu : targetUpdate db t fts u now with
    | error e =>
      simp only [applyTargetOp, hu]
      exact ⟨tr, h, Or.inl rfl⟩
    | ok pr =>
      obtain ⟨r, db'⟩ := pr
      simp only [applyTargetOp, hu]
      obtain ⟨hver, htargets, huuid⟩ := targetUpdate_ok_targets db t fts u now r db' hu
      have hxu : ∀ x, targetUpdatePred db t u x = true → x.uuid = t.uuid := by
        intro x hx
        simp only [targetUpdatePred, Bool.and_eq_true, beq_iff_eq] at hx
        exact hx.1.1
      have hp : ∀ x, ((if targetUpdatePred db t u x then r else x).uuid == uuid) =
          (x.uuid == uuid) := by
        intro x
        by_cases hx : targetUpdatePred db t u x
        · rw [if_pos hx, huuid, hxu x hx]
        · rw [if_neg hx]
      unfold findTarget
      rw [htargets, find?_map_of_pred_eq _ _ _ hp]
      unfold findTarget at h
      rw [h]
      by_cases htr : targetUpdatePred db t u tr
      · refine ⟨_, rfl, ?_⟩
        have hv : tr.version = t.version := by
          have htr' := htr
          simp only [targetUpdatePred, Bool.and_eq_true, beq_iff_eq] at htr'
          exact htr'.1.2
        simp only [htr, if_true]
        rw [hver, hv]
        exact Or.inr rfl
      · refine ⟨_, rfl, ?_⟩
        simp only [if_neg htr]
        exact Or.inl trivial

/-- Along any operation trace the tracked version never decreases. -/
theorem findTarget_trace (cut : String → List String) (ops : List TargetOp) :
    ∀ (db : DB) (uuid : Nat) (tr tr' : TargetRow),
      findTarget db uuid = some tr →
      findTarget (ops.foldl (applyTargetOp cut) db) uuid = some tr' →
      tr.version ≤ tr'.version := by
  induction ops with
  | nil =>
    intro db uuid tr tr' h h'
    rw [List.foldl_nil, h] at h'
    cases h'
    exact Nat.le_refl _
  | cons op rest ih =>
    intro db uuid tr tr' h h'
    obtain ⟨t1, h1, hv⟩ := findTarget_applyOp cut db op uuid tr h
    have := ih (applyTargetOp cut db op) uuid t1 tr' h1 (by simpa using h')
    rcases hv with hv | hv <;> omega

/-- C5: every target row is created with version 1 (the column default);
    a successful conditional update returns exactly expected + 1 and only
    matches rows at the expected version; per operation a row's version
    moves by 0 or exactly +1 (never skipping), and over any operation
    sequence it never decreases. -/
theorem c5_version_discipline (cut : String → List String) :
    (∀ db uuid serial title description notes dueDate status u now db',
       targetInsert cut db uuid serial title description notes dueDate status u now =
         .ok db' →
       ∃ r, findTarget db' uuid = some r ∧ r.version = 1) ∧
    (∀ db t fts u now r db', targetUpdate db t fts u now = .ok (r, db') →
       r.version = t.version + 1 ∧
       (∀ old ∈ db.targets, targetUpdatePred db t u old = true →
          old.version = t.version)) ∧
    (∀ db op uuid tr, findTarget db uuid = some tr →
       ∃ tr', findTarget (applyTargetOp cut db op) uuid = some tr' ∧
         (tr'.version = tr.version ∨ tr'.version = tr.version + 1)) ∧
    (∀ ops db uuid tr tr', findTarget db uuid = some tr →
       findTarget (List.foldl (applyTargetOp cut) db ops) uuid = some tr' →
       tr.version ≤ tr'.version) := by
  refine ⟨?_, ?_, fun db op uuid tr h => findTarget_applyOp cut db op uuid tr h,
    fun ops db uuid tr tr' h h' => findTarget_trace cut ops db uuid tr tr' h h'⟩
  · intro db uuid serial title description notes dueDate status u now db' h
    obtain ⟨hnone, htg⟩ := targetInsert_ok cut db uuid serial title description notes
      dueDate status u now db' h
    refine ⟨{ uuid := uuid, serialId := serial, title := title, description := description,
              notes := notes, createdAt := now, dueDate := dueDate, updatedAt := now,
              lastActive := now, version := 1, status := status }, ?_, rfl⟩
    unfold findTarget
    rw [htg, List.find?_append, hnone]
    simp
  · intro db t fts u now r db' h
    refine ⟨(targetUpdate_ok_targets db t fts u now r db' h).1, ?_⟩
    intro old _ hpred
    simp only [targetUpdatePred, Bool.and_eq_true, beq_iff_eq] at hpred
    exact hpred.1.2

/-- C5 witness: inserting target 1 into the empty store yields version 1. -/
theorem c5_version_discipline_witness :
    ∃ r, findTarget c5dbAfter 1 = some r ∧ r.version = 1 :=
  (c5_version_discipline cut0).1 emptyDB 1 1 "t" "" "" none "queued" 4 0 c5dbAfter rfl

/-- C6 counterexample: with a query in each script — "中" matching the
    resource's chinese index, "zzz" missing from its english index — the
    query guards (which are conjoined) exclude the resource, while the
    claim's "matches if either non-empty query string matches" admits it. -/
theorem c6_counterexample :
    targetListPred c6db 7 "中" "zzz" "" c6row = false ∧
    specEitherMatch "中" "zzz" (tsvMatch c6fts.chineseTsv "中")
      (tsvMatch c6fts.englishTsv "zzz") = true ∧
    tsvMatch c6fts.chineseTsv "中" = true :=
  ⟨by decide, by decide, by decide⟩

/-- C6 (amended): the search phrase is tokenized into an ideographic and a
    Latin query; a resource (with its index row) passes the free-text
    filter iff for each script the query string is empty or matches that
    script's index — when both are non-empty both must match — and an empty
    phrase reduces the filter to the access-visibility predicate alone
    (unfiltered listing). -/
theorem c6_search_filter (db : DB) (u : Nat) (cq eq2 statusF : String) (t : TargetRow)
    (f : ResourceFts)
    (hf : db.targetsFts.find? (fun x => x.resourceUuid == t.uuid) = some f) :
    (targetListPred db u cq eq2 statusF t = true ↔
      ((cq = "" ∨ tsvMatch f.chineseTsv cq = true) ∧
       (eq2 = "" ∨ tsvMatch f.englishTsv eq2 = true) ∧
       (statusF = "" ∨ t.status = statusF) ∧
       grantB db u .target t.uuid (roleRank Role.viewer) = true)) ∧
    (targetListPred db u "" "" "" t = grantB db u .target t.uuid (roleRank Role.viewer)) ∧
    (∀ cut search fl, listTargets cut db u search fl =
       targetsGetAllForUser db (tokenizerNew cut search) fl u) := by
  refine ⟨?_, ?_, fun _ _ _ => rfl⟩
  · unfold targetListPred
    rw [hf]
    simp [Bool.and_eq_true, Bool.or_eq_true, beq_iff_eq, and_assoc]
  · unfold targetListPred
    rw [hf]
    simp

/-- C6 witness: an empty search phrase lists exactly the visible rows. -/
theorem c6_search_filter_witness :
    targetListPred c6db 7 "" "" "" c6row =
      grantB c6db 7 ResType.target c6row.uuid (roleRank Role.viewer) :=
  (c6_search_filter c6db 7 "x" "y" "z" c6row c6fts (by decide)).2.1

/-- Summing lexeme weights of one constant-weight stream counts the
    matching tokens. -/
theorem lex_filter_sum (ts : List String) (c : Nat) (w : String) :
    (((ts.map (fun t => ({ word := t, weight := c } : Lexeme))).filter
        (fun l => l.word == w)).map Lexeme.weight).sum =
      c * (ts.filter (fun x => x == w)).length := by
  induction ts with
  | nil => simp
  | cons a ts ih =>
    by_cases h : a == w
    · simp only [List.map_cons, List.filter_cons, h, if_true, List.sum_cons, ih,
        List.length_cons]
      rw [Nat.mul_add, Nat.mul_one, Nat.add_comm]
    · simp only [List.map_cons, List.filter_cons, h, Bool.false_eq_true, if_false, ih]

/-- ts_rank of a constant-weight stream is weight times match count. -/
theorem tsRank_toTsvector (c : Nat) (s q : String) :
    tsRank (toTsvector c s) q = c * matchCount (queryTerms s) q := by
  unfold tsRank toTsvector matchCount
  rw [← List.sum_map_mul_left]
  congr 1
  apply List.map_congr_left
  intro w _
  exact lex_filter_sum (queryTerms s) c w

/-- ts_rank splits over the concatenation of index streams. -/
theorem tsRank_append (l1 l2 : List Lexeme) (q : String) :
    tsRank (l1 ++ l2) q = tsRank l1 q + tsRank l2 q := by
  unfold tsRank
  rw [← List.sum_map_add]
  congr 1
  apply List.map_congr_left
  intro w _
  rw [List.filter_append, List.map_append, List.sum_append]

/-- C7: the relevance score of a target/action is the sum over the two
    script streams of the ts_rank against the combined title+description
    index, in which title tokens carry weight A and description tokens the
    strictly smaller weight B; the notes index never contributes (two
    resources differing only in notes score identically). -/
theorem c7_relevance_score (cut : String → List String) (uuid : Nat)
    (title description notes notes' cq eq2 : String) :
    (listRank (genResourceFts cut uuid title description notes) cq eq2 =
       listRank (genResourceFts cut uuid title description notes') cq eq2) ∧
    (listRank (genResourceFts cut uuid title description notes) cq eq2 =
       (if cq == "" then 0 else
          weightA * matchCount (queryTerms (tokenizerNew cut title).chinese) cq +
          weightB * matchCount (queryTerms (tokenizerNew cut description).chinese) cq) +
       (if eq2 == "" then 0 else
          weightA * matchCount (queryTerms (tokenizerNew cut title).english) eq2 +
          weightB * matchCount (queryTerms (tokenizerNew cut description).english) eq2)) ∧
    weightB < weightA := by
  have key : ∀ (tc dc q : String),
      tsRank (toTsvector weightA tc ++ toTsvector weightB dc) q =
        weightA * matchCount (queryTerms tc) q + weightB * matchCount (queryTerms dc) q := by
    intro tc dc q
    rw [tsRank_append, tsRank_toTsvector, tsRank_toTsvector]
  refine ⟨rfl, ?_, by decide⟩
  show (if cq == "" then 0 else
          tsRank (toTsvector weightA (tokenizerNew cut title).chinese ++
            toTsvector weightB (tokenizerNew cut description).chinese) cq) +
       (if eq2 == "" then 0 else
          tsRank (toTsvector weightA (tokenizerNew cut title).english ++
            toTsvector weightB (tokenizerNew cut description).english) eq2) = _
  rw [key, key]

/-- The listing metadata always reports the pre-pagination total. -/
theorem calculateMetadata_totalRecords (total page pageSize : Nat) :
    (calculateMetadata total page pageSize).totalRecords = total := by
  unfold calculateMetadata
  by_cases h : total == 0
  · rw [if_pos h]
    have : total = 0 := by simpa using h
    rw [this]
  · rw [if_neg h]

/-- C8: with a safelisted sort value, a listing returns a page whose rows
    are ordered by the selected column and direction, then rank descending,
    then the monotonic identifier descending (serial_id for actions, uuid
    for sessions), taken as the offset/limit slice of the fully sorted
    filtered set; the reported total counts the whole filtered,
    access-scoped set before paging. -/
theorem c8_listing_order (db : DB) (tok : Tokenizer) (f : Filters)
    (targetF actionF : Option Nat) (u : Nat)
    (hA : f.sortSafelist.contains f.sort = true) :
    (∃ res md, actionsGetAll db tok f targetF u = .ok (res, md)) ∧
    (∀ res md, actionsGetAll db tok f targetF u = .ok (res, md) →
       md.totalRecords =
         (db.actions.filter
           (actionListPred db u tok.chinese tok.english f.status targetF)).length ∧
       List.Sorted
         (lexLe (actionSortKey (if f.sort.startsWith "-" then f.sort.drop 1 else f.sort))
           (sortAscending f) (actionRankOf db tok.chinese tok.english) ActionRow.serialId)
         res ∧
       res = (((db.actions.filter
                 (actionListPred db u tok.chinese tok.english f.status targetF)).insertionSort
                 (lexLe (actionSortKey (if f.sort.startsWith "-" then f.sort.drop 1 else f.sort))
                   (sortAscending f) (actionRankOf db tok.chinese tok.english)
                   ActionRow.serialId)).drop (offsetQ f)).take (limitQ f)) ∧
    (∃ res md, sessionsGetAll db tok f actionF u = .ok (res, md)) ∧
    (∀ res md, sessionsGetAll db tok f actionF u = .ok (res, md) →
       md.totalRecords =
         (db.sessions.filter (sessionListPred db u tok.chinese tok.english actionF)).length ∧
       List.Sorted
         (lexLe (sessionSortKey (if f.sort.startsWith "-" then f.sort.drop 1 else f.sort))
           (sortAscending f) (sessionRankOf db tok.chinese tok.english) SessionRow.uuid)
         res) := by
  have hcol : sortColumn f = some (if f.sort.startsWith "-" then f.sort.drop 1 else f.sort) := by
    unfold sortColumn
    rw [if_pos hA]
  refine ⟨?_, ?_, ?_, ?_⟩
  · simp only [actionsGetAll, hcol]
    exact ⟨_, _, rfl⟩
  · intro res md h
    simp only [actionsGetAll, hcol] at h
    have h2 := Except.ok.inj h
    have hres := congrArg Prod.fst h2
    have hmd := congrArg Prod.snd h2
    subst hres hmd
    refine ⟨calculateMetadata_totalRecords _ _ _, ?_, rfl⟩
    letI : IsTotal ActionRow (lexLe
        (actionSortKey (if f.sort.startsWith "-" then f.sort.drop 1 else f.sort))
        (sortAscending f) (actionRankOf db tok.chinese tok.english) ActionRow.serialId) :=
      ⟨lexLe_total _ _ _ _⟩
    letI : IsTrans ActionRow (lexLe
        (actionSortKey (if f.sort.startsWith "-" then f.sort.drop 1 else f.sort))
        (sortAscending f) (actionRankOf db tok.chinese tok.english) ActionRow.serialId) :=
      ⟨lexLe_trans _ _ _ _⟩
    exact List.Pairwise.sublist
      ((List.take_sublist _ _).trans (List.drop_sublist _ _))
      (List.sorted_insertionSort _ _)
  · simp only [sessionsGetAll, hcol]
    exact ⟨_, _, rfl⟩
  · intro res md h
    simp only [sessionsGetAll, hcol] at h
    have h2 := Except.ok.inj h
    have hres := congrArg Prod.fst h2
    have hmd := congrArg Prod.snd h2
    subst hres hmd
    refine ⟨calculateMetadata_totalRecords _ _ _, ?_⟩
    letI : IsTotal SessionRow (lexLe
        (sessionSortKey (if f.sort.startsWith "-" then f.sort.drop 1 else f.sort))
        (sortAscending f) (sessionRankOf db tok.chinese tok.english) SessionRow.uuid) :=
      ⟨lexLe_total _ _ _ _⟩
    letI : IsTrans SessionRow (lexLe
        (sessionSortKey (if f.sort.startsWith "-" then f.sort.drop 1 else f.sort))
        (sortAscending f) (sessionRankOf db tok.chinese tok.english) SessionRow.uuid) :=
      ⟨lexLe_trans _ _ _ _⟩
    exact List.Pairwise.sublist
      ((List.take_sublist _ _).trans (List.drop_sublist _ _))
      (List.sorted_insertionSort _ _)

/-- C8 witness: a serial_id listing over the empty store succeeds. -/
theorem c8_listing_order_witness :
    ∃ res md, actionsGetAll emptyDB ⟨"", ""⟩
      { page := 1, pageSize := 20, sort := "serial_id", sortSafelist := SortSafelist,
        status := "" } none 7 = .ok (res, md) :=
  (c8_listing_order emptyDB ⟨"", ""⟩
    { page := 1, pageSize := 20, sort := "serial_id", sortSafelist := SortSafelist,
      status := "" } none none 7 (by decide)).1

/-- C9: a conditional write that changes a resource's parent reference
    matches only when the requester holds owner-rank grants on both the
    current parent and the intended new parent (targets for an action,
    actions for a session); with any weaker grant on the new parent the
    re-parenting write matches no row and surfaces as EditConflict. -/
theorem c9_reparent_requires_owner :
    (∀ (db : DB) (t : ActionRow) (fts : ResourceFts) (u now : Nat) (r : ActionRow) (db' : DB),
       actionUpdate db t fts u now = .ok (r, db') →
       ∃ old ∈ db.actions, old.uuid = t.uuid ∧ old.version = t.version ∧
         (old.targetUuid = t.targetUuid ∨
          (grantB db u .target old.targetUuid (roleRank Role.owner) = true ∧
           grantB db u .target t.targetUuid (roleRank Role.owner) = true))) ∧
    (∀ (db : DB) (s : SessionRow) (fts : SessionFts) (u now : Nat) (r : SessionRow) (db' : DB),
       sessionUpdate db s fts u now = .ok (r, db') →
       ∃ old ∈ db.sessions, old.uuid = s.uuid ∧ old.version = s.version ∧
         (old.actionUuid = s.actionUuid ∨
          (grantB db u .action old.actionUuid (roleRank Role.owner) = true ∧
           grantB db u .action s.actionUuid (roleRank Role.owner) = true))) ∧
    (∀ (db : DB) (t : ActionRow) (fts : ResourceFts) (u now : Nat),
       grantB db u .target t.targetUuid (roleRank Role.owner) = false →
       (∀ old ∈ db.actions, old.uuid = t.uuid → old.targetUuid ≠ t.targetUuid) →
       actionUpdate db t fts u now = .error .editConflict) := by
  refine ⟨?_, ?_, ?_⟩
  · intro db t fts u now r db' h
    cases hm : db.actions.find? (actionUpdatePred db t u) with
    | none =>
      unfold actionUpdate at h
      rw [hm] at h
      cases h
    | some old =>
      have hmem := List.mem_of_find?_eq_some hm
      have hpred := List.find?_some hm
      simp only [actionUpdatePred, Bool.and_eq_true, Bool.or_eq_true, beq_iff_eq,
        bne_iff_ne, and_assoc] at hpred
      obtain ⟨hu, hv, hbranch⟩ := hpred
      refine ⟨old, hmem, hu, hv, ?_⟩
      rcases hbranch with ⟨heq, _⟩ | ⟨_, hg1, hg2⟩
      · exact Or.inl heq.symm
      · exact Or.inr ⟨hg1, hg2⟩
  · intro db s fts u now r db' h
    cases hm : db.sessions.find? (sessionUpdatePred db s u) with
    | none =>
      unfold sessionUpdate at h
      rw [hm] at h
      cases h
    | some old =>
      have hmem := List.mem_of_find?_eq_some hm
      have hpred := List.find?_some hm
      simp only [sessionUpdatePred, Bool.and_eq_true, Bool.or_eq_true, beq_iff_eq,
        bne_iff_ne, and_assoc] at hpred
      obtain ⟨hu, hv, hbranch⟩ := hpred
      refine ⟨old, hmem, hu, hv, ?_⟩
      rcases hbranch with ⟨heq, _⟩ | ⟨_, hg1, hg2⟩
      · exact Or.inl heq.symm
      · exact Or.inr ⟨hg1, hg2⟩
  · intro db t fts u now hgf hno
    have hnone : db.actions.find? (actionUpdatePred db t u) = none := by
      apply List.find?_eq_none.mpr
      intro x hx hpx
      simp only [actionUpdatePred, Bool.and_eq_true, Bool.or_eq_true, beq_iff_eq,
        bne_iff_ne, and_assoc] at hpx
      obtain ⟨hu, _, hbranch⟩ := hpx
      rcases hbranch with ⟨heq, _⟩ | ⟨_, _, hg2⟩
      · exact hno x hx hu heq.symm
      · simp [hgf] at hg2
    unfold actionUpdate
    rw [hnone]

/-- C9 witness: user 5 holds only editor grants on both targets, so the
    re-parenting update of action 10 from target 1 to target 2 matches no
    row. -/
theorem c9_reparent_requires_owner_witness :
    actionUpdate c9db c9submitted c9fts 5 9 = .error .editConflict :=
  c9_reparent_requires_owner.2.2 c9db c9submitted c9fts 5 9 (by decide) (by decide)

end Yatijapp
